import Mathlib

/-!
Shallow embedding of `crates/ra_hir_def/src/path.rs`: the desugared
representation of paths (`Path`, `PathSegment`, `GenericArgs`) and the
lowering algorithm `Path::from_src`, together with the generic-argument
collectors `GenericArgs::from_ast` and `GenericArgs::from_fn_like_path_ast`.

External collaborators (the concrete syntax tree, the hygiene resolver and
the type-reference lowering) are modelled at their boundary, exactly as the
code of `path.rs` observes them.
-/

namespace RaHirDef

/-- Interned identifier, boundary model of `hir_expand::name::Name`. -/
abbrev Name := String

/-- Compilation-unit identifier, boundary model of `ra_db::CrateId`. -/
abbrev CrateId := Nat

/-- Opaque identity of one concrete type-syntax node (`ast::TypeRef`). -/
abbrev TypeNode := Nat

/-- Modelled from the spec: the semantic type reference produced by the
type-reference collaborator (`crate::type_ref::TypeRef`, whose source is
outside this core). `fromNode n` is the (opaque) semantic value of the
concrete type node `n`; `Error` is the placeholder substituted for an
absent or malformed node; `Tuple` is the tuple type synthesized by the
function-sugar collector. -/
inductive TypeRef : Type where
  | fromNode (n : TypeNode)
  | Error
  | Tuple (ts : List TypeRef)

/-- Boundary model of `TypeRef::from_ast`: lower one present type node. -/
def TypeRef.from_ast (n : TypeNode) : TypeRef := TypeRef.fromNode n

/-- Boundary model of `TypeRef::from_ast_opt`: an absent type node becomes
the placeholder (error) type, never a failure. -/
def TypeRef.from_ast_opt : Option TypeNode → TypeRef
  | some n => TypeRef.from_ast n
  | none => TypeRef.Error

/-- A single generic argument (`GenericArg` in path.rs); only type
arguments are representable. -/
inductive GenericArg : Type where
  | type_ (t : TypeRef)

/-- Generic arguments of one path segment (`GenericArgs` in path.rs). -/
structure GenericArgs : Type where
  args : List GenericArg
  has_self_type : Bool
  bindings : List (Name × TypeRef)

/-- One path segment (`PathSegment` in path.rs); the `Arc` sharing of the
argument payload is immaterial to values and dropped. -/
structure PathSegment : Type where
  name : Name
  args_and_bindings : Option GenericArgs

/-- The root anchor of a path (`PathKind` in path.rs). -/
inductive PathKind : Type where
  | plain
  | self_
  | super_
  | crate_
  | abs
  | type_ (t : TypeRef)
  | dollarCrate (id : CrateId)

/-- The desugared path (`Path` in path.rs): root anchor plus root-first
segment sequence. -/
structure Path : Type where
  kind : PathKind
  segments : List PathSegment

/-- The fixed associated-output-type identifier `name::OUTPUT_TYPE`. -/
def OUTPUT_TYPE : Name := "Output"

/-- Syntax boundary: one type argument child of a `TypeArgList`, exposing
an optional inner type node. -/
structure TypeArg : Type where
  type_ref : Option TypeNode

/-- Syntax boundary: one associated-type-binding child (`AssocTypeArg`),
with optional name reference and optional inner type node. -/
structure AssocTypeArg : Type where
  name_ref : Option Name
  type_ref : Option TypeNode

/-- Syntax boundary: an explicit angle-bracket argument list
(`ast::TypeArgList`). -/
structure TypeArgList : Type where
  type_args : List TypeArg
  assoc_type_args : List AssocTypeArg

/-- Syntax boundary: one parameter of a function-sugar parameter list,
with an optional ascribed type. -/
structure Param : Type where
  ascribed_type : Option TypeNode

/-- Syntax boundary: a function-sugar parameter list (`ast::ParamList`). -/
structure ParamList : Type where
  params : List Param

/-- Syntax boundary: a function-sugar return type (`ast::RetType`). -/
structure RetType : Type where
  type_ref : Option TypeNode

/-- `GenericArgs::from_ast`: collect from an explicit argument list; each
type argument contributes one slot (placeholder when its inner type is
missing), each named associated-type binding contributes one pair, and an
empty collection yields absence. -/
def GenericArgs.from_ast (node : TypeArgList) : Option GenericArgs :=
  let args := node.type_args.map fun type_arg =>
    GenericArg.type_ (TypeRef.from_ast_opt type_arg.type_ref)
  let bindings := node.assoc_type_args.filterMap fun assoc_type_arg =>
    assoc_type_arg.name_ref.map fun nm =>
      (nm, TypeRef.from_ast_opt assoc_type_arg.type_ref)
  if args.isEmpty && bindings.isEmpty then
    none
  else
    some ⟨args, false, bindings⟩

/-- `GenericArgs::from_fn_like_path_ast`: collect from the parts of a
fn-like path, i.e. `Fn(X, Y) -> Z` desugaring to `Fn<(X, Y), Output=Z>`. -/
def GenericArgs.from_fn_like_path_ast
    (params : Option ParamList) (ret_type : Option RetType) : Option GenericArgs :=
  let args : List GenericArg :=
    match params with
    | none => []
    | some ps =>
      [GenericArg.type_ (TypeRef.Tuple
        (ps.params.map fun p => TypeRef.from_ast_opt p.ascribed_type))]
  let bindings : List (Name × TypeRef) :=
    match ret_type with
    | none => []
    | some r => [(OUTPUT_TYPE, TypeRef.from_ast_opt r.type_ref)]
  if args.isEmpty && bindings.isEmpty then
    none
  else
    some ⟨args, false, bindings⟩

/-- `GenericArgs::empty`. -/
def GenericArgs.empty : GenericArgs := ⟨[], false, []⟩

/-- `Path::from_simple_segments`: build a path of the given kind whose
segments are the given names, each without generic arguments. -/
def Path.from_simple_segments (kind : PathKind) (segments : List Name) : Path :=
  ⟨kind, segments.map fun nm => ⟨nm, none⟩⟩

/-- `Path::is_ident`: true when the path is a single plain identifier
(the kind is `Plain` and there is exactly one segment). -/
def Path.is_ident (p : Path) : Bool :=
  match p.kind with
  | PathKind.plain => p.segments.length == 1
  | _ => false

/-- `Path::is_self`: true when the path is a standalone `self`. -/
def Path.is_self (p : Path) : Bool :=
  match p.kind with
  | PathKind.self_ => p.segments.isEmpty
  | _ => false

/-- `Path::as_ident`: the name when the path is a single plain identifier
(absence when the kind is not `Plain` or there is more than one segment). -/
def Path.as_ident (p : Path) : Option Name :=
  match p.kind with
  | PathKind.plain =>
    if p.segments.length > 1 then none
    else p.segments.head?.map PathSegment.name
  | _ => none

/-- Hygiene collaborator boundary (`Hygiene::name_ref_to_name`): a name
reference resolves either to an ordinary name (left) or to the hygienic
crate-root marker carrying a compilation-unit identifier (right). -/
abbrev Hygiene := Name → Name ⊕ CrateId

/-- `Hygiene::new_unhygienic`: every name reference is an ordinary name. -/
def Hygiene.new_unhygienic : Hygiene := fun nm => Sum.inl nm

mutual

/-- Syntax boundary: one `ast::Path` node. `qualifier` is the explicit
qualifier attached to the node; `useTreeQualifier` is the result of the
upward ancestor search for an enclosing grouped-import list (the path of
`UseTreeList::parent_use_tree`, absent when the node sits in no such
context); `segment` is the node's own (optional) segment. -/
inductive AstPath : Type where
  | mk (qualifier : Option AstPath) (useTreeQualifier : Option AstPath)
      (segment : Option AstPathSegment)

/-- Syntax boundary: one `ast::PathSegment`, exposing the leading
double-colon marker and the (optional) classified segment kind. -/
inductive AstPathSegment : Type where
  | mk (has_colon_colon : Bool) (kind : Option AstSegmentKind)

/-- Syntax boundary: `ast::PathSegmentKind`. A `name` segment also exposes
the accessors used for generic arguments (`type_arg_list`, `param_list`,
`ret_type`); a `typeBased` segment (`PathSegmentKind::Type`) exposes the
optional inner type node and the optional trait reference. -/
inductive AstSegmentKind : Type where
  | name (name_ref : Name) (type_arg_list : Option TypeArgList)
      (param_list : Option ParamList) (ret_type : Option RetType)
  | typeBased (type_ref : Option TypeNode) (trait_ref : Option AstTraitRef)
  | crateKw
  | selfKw
  | superKw

/-- Syntax boundary: `ast::TraitRef`, exposing its (optional) path. -/
inductive AstTraitRef : Type where
  | mk (path : Option AstPath)

end

/-- Accessor for the explicit qualifier of an `ast::Path` node. -/
def AstPath.qualifier : AstPath → Option AstPath
  | .mk q _ _ => q

/-- Accessor for the implicit grouped-import qualifier of an `ast::Path`
node (the ancestor-search result). -/
def AstPath.useTreeQualifier : AstPath → Option AstPath
  | .mk _ u _ => u

/-- Accessor for the segment of an `ast::Path` node. -/
def AstPath.segment : AstPath → Option AstPathSegment
  | .mk _ _ s => s

mutual

/-- A computable bound on the number of walk steps reachable from a node:
it adds the bounds of the three positions the walk can descend into (the
explicit qualifier, the implicit grouped-import qualifier, and the path of
a trait reference inside a type-based segment). -/
def AstPath.walkBound : AstPath → Nat
  | .mk q u s => walkBoundOpt q + walkBoundOpt u + segTraitBound s + 1
termination_by p => sizeOf p

/-- Walk-step bound of an optional node. -/
def walkBoundOpt : Option AstPath → Nat
  | none => 0
  | some p => p.walkBound
termination_by o => sizeOf o

/-- Walk-step bound of the trait-reference path reachable inside an
optional segment. -/
def segTraitBound : Option AstPathSegment → Nat
  | some (.mk _ (some (.typeBased _ (some (.mk (some p)))))) => p.walkBound
  | _ => 0
termination_by s => sizeOf s

end

/-- Replace the last element of a segment list by its image under `f`,
failing on the empty list; models `segments.last_mut()?` followed by the
in-place mutation of that last segment. -/
def modifyLastSeg (f : PathSegment → PathSegment) : List PathSegment → Option (List PathSegment)
  | [] => none
  | [s] => some [f s]
  | s :: rest => (modifyLastSeg f rest).map fun r => s :: r

/-- The Self-splicing mutation of `Path::from_src`: on the targeted
segment, synthesize an empty argument set when none is present, mark
`has_self_type`, and insert the outer type at argument index 0 (shifting
any explicit arguments right). Bindings are untouched. -/
def spliceSelf (self_type : TypeRef) (s : PathSegment) : PathSegment :=
  let g := match s.args_and_bindings with
    | none => GenericArgs.empty
    | some g => g
  ⟨s.name, some ⟨GenericArg.type_ self_type :: g.args, true, g.bindings⟩⟩

/-- The generic arguments attached to one ordinary name segment:
`segment.type_arg_list().and_then(GenericArgs::from_ast).or_else(||
GenericArgs::from_fn_like_path_ast(segment.param_list(),
segment.ret_type()))`. -/
def segArgs (type_arg_list : Option TypeArgList) (param_list : Option ParamList)
    (ret_type : Option RetType) : Option GenericArgs :=
  match type_arg_list.bind GenericArgs.from_ast with
  | some a => some a
  | none => GenericArgs.from_fn_like_path_ast param_list ret_type

/-- The loop of `Path::from_src`, with the mutable state (`kind` and the
leaf-first segment accumulator `segments`) passed explicitly. One call is
one loop iteration at the current node `path`. `Except.error ()` models a
failure of the `assert!(path.qualifier().is_none())` integrity check;
`Except.ok none` models the `?`-propagated absence of a path.

The `fuel` argument only makes the recursion structural; it is spent one
unit per step, every step descends into a strict syntactic subterm, and
`fromSrcGoF_fuel_irrel` shows any fuel at least `walkBound path` gives the
same result, so the exhaustion branch is unreachable from
`Path.from_src`. -/
def fromSrcGoF (hygiene : Hygiene) :
    Nat → AstPath → PathKind → List PathSegment → Except Unit (Option Path)
  | 0, _, _, _ => Except.ok none
  | fuel + 1, .mk qual utq seg, kind, segments =>
    match seg with
    | none => Except.ok none
    | some (.mk has_colon_colon segKind) =>
      let kind := if has_colon_colon then PathKind.abs else kind
      match segKind with
      | none => Except.ok none
      | some (.name name_ref type_arg_list param_list ret_type) =>
        match hygiene name_ref with
        | Sum.inl nm =>
          let args : Option GenericArgs := segArgs type_arg_list param_list ret_type
          let segments := segments ++ [⟨nm, args⟩]
          match qual with
          | some q => fromSrcGoF hygiene fuel q kind segments
          | none =>
            match utq with
            | some q => fromSrcGoF hygiene fuel q kind segments
            | none => Except.ok (some ⟨kind, segments.reverse⟩)
        | Sum.inr crate_id =>
          Except.ok (some ⟨PathKind.dollarCrate crate_id, segments.reverse⟩)
      | some (.typeBased type_ref trait_ref) =>
        match qual with
        | some _ => Except.error ()
        | none =>
          match type_ref with
          | none => Except.ok none
          | some ty =>
            let self_type := TypeRef.from_ast ty
            match trait_ref with
            | none =>
              let kind := PathKind.type_ self_type
              match utq with
              | some q => fromSrcGoF hygiene fuel q kind segments
              | none => Except.ok (some ⟨kind, segments.reverse⟩)
            | some (.mk traitPathOpt) =>
              match traitPathOpt with
              | none => Except.ok none
              | some traitPath =>
                match fromSrcGoF hygiene fuel traitPath PathKind.plain [] with
                | Except.error e => Except.error e
                | Except.ok none => Except.ok none
                | Except.ok (some tpath) =>
                  let kind := tpath.kind
                  let prefixSegments := tpath.segments.reverse
                  let segments := segments ++ prefixSegments
                  match modifyLastSeg (spliceSelf self_type) segments with
                  | none => Except.ok none
                  | some segments =>
                    match utq with
                    | some q => fromSrcGoF hygiene fuel q kind segments
                    | none => Except.ok (some ⟨kind, segments.reverse⟩)
      | some .crateKw => Except.ok (some ⟨PathKind.crate_, segments.reverse⟩)
      | some .selfKw => Except.ok (some ⟨PathKind.self_, segments.reverse⟩)
      | some .superKw => Except.ok (some ⟨PathKind.super_, segments.reverse⟩)

/-- `Path::from_src`: lower one concrete path node under the given hygiene
context, starting from a `Plain` kind and an empty accumulator. The fuel
`walkBound path` strictly bounds the number of walk steps. -/
def Path.from_src (hygiene : Hygiene) (path : AstPath) : Except Unit (Option Path) :=
  fromSrcGoF hygiene path.walkBound path PathKind.plain []

/-- `Path::from_ast`: the unhygienic convenience entry point. -/
def Path.from_ast (path : AstPath) : Except Unit (Option Path) :=
  Path.from_src Hygiene.new_unhygienic path

/-- Whether an optional segment is classified as type-based
(`PathSegmentKind::Type`). -/
def isTypeBasedSeg : Option AstPathSegment → Bool
  | some (.mk _ (some (.typeBased _ _))) => true
  | _ => false

mutual

/-- Validity of concrete syntax with respect to type-based segments: a
node whose segment kind is type-based carries no explicit qualifier (in
valid concrete syntax `<T>` or `<T as Trait>` can only open a path), and
the same holds recursively everywhere the walk can descend. -/
def AstPath.typeSegOk : AstPath → Bool
  | .mk q u s =>
    (!isTypeBasedSeg s || q.isNone) && typeSegOkOpt q && typeSegOkOpt u
      && traitPathOk s
termination_by p => sizeOf p

/-- Type-based-segment validity of an optional node. -/
def typeSegOkOpt : Option AstPath → Bool
  | none => true
  | some p => p.typeSegOk
termination_by o => sizeOf o

/-- Type-based-segment validity of the trait-reference path reachable
inside an optional segment. -/
def traitPathOk : Option AstPathSegment → Bool
  | some (.mk _ (some (.typeBased _ (some (.mk (some p)))))) => p.typeSegOk
  | _ => true
termination_by s => sizeOf s

end

/-- The self-type invariant on one argument set: `has_self_type` is true
only when the argument sequence is non-empty and starts with a type
argument (the spliced Self type). -/
def GenericArgs.selfInv (g : GenericArgs) : Prop :=
  g.has_self_type = true → ∃ t rest, g.args = GenericArg.type_ t :: rest

/-- The self-type invariant on one segment: any argument set it carries
satisfies the invariant. -/
def PathSegment.selfInv (s : PathSegment) : Prop :=
  ∀ g, s.args_and_bindings = some g → g.selfInv

/-- The self-type invariant on a whole path: every segment satisfies it. -/
def Path.selfInv (p : Path) : Prop :=
  ∀ s, s ∈ p.segments → s.selfInv

/-- Concrete syntax: a bare name segment without argument syntax. -/
def nameSeg (nm : Name) : AstPathSegment :=
  AstPathSegment.mk false (some (AstSegmentKind.name nm none none none))

/-- Concrete syntax: a bare single-identifier path node. -/
def identAst (nm : Name) : AstPath :=
  AstPath.mk none none (some (nameSeg nm))

/-- Concrete syntax of the trait-qualified path `<T as a::Tr>::Item` with
`T` the type node number 0: the leaf node holds segment `Item`, its
qualifier holds the type-based segment whose trait reference is the
two-segment path `a::Tr`. -/
def traitQualItemAst : AstPath :=
  AstPath.mk
    (some (AstPath.mk none none (some (AstPathSegment.mk false
      (some (AstSegmentKind.typeBased (some 0)
        (some (AstTraitRef.mk (some (AstPath.mk (some (identAst "a")) none
          (some (nameSeg "Tr"))))))))))))
    none
    (some (nameSeg "Item"))

/-- Every node allows at least one walk step. -/
theorem AstPath.walkBound_pos (p : AstPath) : 1 ≤ p.walkBound := by
  obtain ⟨q, u, s⟩ := p
  simp only [AstPath.walkBound, walkBoundOpt, segTraitBound]
  omega

/-- The walk bound strictly shrinks when descending into the explicit
qualifier. -/
theorem AstPath.walkBound_qualifier_lt (pq : AstPath) (u : Option AstPath)
    (s : Option AstPathSegment) :
    pq.walkBound < (AstPath.mk (some pq) u s).walkBound := by
  simp only [AstPath.walkBound, walkBoundOpt, segTraitBound]
  omega

/-- The walk bound strictly shrinks when descending into the implicit
grouped-import qualifier. -/
theorem AstPath.walkBound_useTree_lt (q : Option AstPath) (pu : AstPath)
    (s : Option AstPathSegment) :
    pu.walkBound < (AstPath.mk q (some pu) s).walkBound := by
  simp only [AstPath.walkBound, walkBoundOpt, segTraitBound]
  omega

/-- The walk bound strictly shrinks when descending into the path of a
trait reference of a type-based segment. -/
theorem AstPath.walkBound_trait_lt (q u : Option AstPath) (cc : Bool)
    (ty : Option TypeNode) (tp : AstPath) :
    tp.walkBound < (AstPath.mk q u (some (AstPathSegment.mk cc
      (some (AstSegmentKind.typeBased ty (some (AstTraitRef.mk (some tp)))))))).walkBound := by
  simp only [AstPath.walkBound, walkBoundOpt, segTraitBound]
  omega

/-- Fuel irrelevance: any fuel at least `walkBound p` yields the same value,
so `Path.from_src` computes the limit of the walk and the exhaustion branch
of `fromSrcGoF` is unreachable from it. -/
theorem fromSrcGoF_fuel_irrel (hygiene : Hygiene) :
    ∀ f₁ : Nat, ∀ (f₂ : Nat) (p : AstPath) (kind : PathKind) (segments : List PathSegment),
      p.walkBound ≤ f₁ → p.walkBound ≤ f₂ →
      fromSrcGoF hygiene f₁ p kind segments = fromSrcGoF hygiene f₂ p kind segments := by
  intro f₁
  induction f₁ with
  | zero =>
    intro f₂ p kind segments h₁ h₂
    exact absurd (Nat.le_trans (p.walkBound_pos) h₁) (by omega)
  | succ fuel ih =>
    intro f₂ p kind segments h₁ h₂
    obtain ⟨q, u, seg⟩ := p
    obtain _ | m := f₂
    · exact absurd (Nat.le_trans ((AstPath.mk q u seg).walkBound_pos) h₂) (by omega)
    rcases seg with _ | ⟨cc, sk⟩
    · rfl
    rcases sk with _ | sk
    · rfl
    have hqb : ∀ pq : AstPath, q = some pq → pq.walkBound ≤ fuel ∧ pq.walkBound ≤ m := by
      intro pq hq
      subst hq
      have := AstPath.walkBound_qualifier_lt pq u (some (AstPathSegment.mk cc (some sk)))
      omega
    have hub : ∀ pu : AstPath, u = some pu → pu.walkBound ≤ fuel ∧ pu.walkBound ≤ m := by
      intro pu hu
      subst hu
      have := AstPath.walkBound_useTree_lt q pu (some (AstPathSegment.mk cc (some sk)))
      omega
    cases sk with
    | name nr tal pl rt =>
      rcases hnr : hygiene nr with nm | cid
      · rcases q with _ | pq
        · rcases u with _ | pu
          · simp only [fromSrcGoF, hnr]
          · simp only [fromSrcGoF, hnr]
            exact ih m pu _ _ (hub pu rfl).1 (hub pu rfl).2
        · simp only [fromSrcGoF, hnr]
          exact ih m pq _ _ (hqb pq rfl).1 (hqb pq rfl).2
      · simp only [fromSrcGoF, hnr]
    | typeBased ty tr =>
      rcases q with _ | pq
      · rcases ty with _ | tyn
        · rfl
        rcases tr with _ | ⟨tpo⟩
        · rcases u with _ | pu
          · rfl
          · simp only [fromSrcGoF]
            exact ih m pu _ _ (hub pu rfl).1 (hub pu rfl).2
        rcases tpo with _ | tp
        · rfl
        have htb : tp.walkBound ≤ fuel ∧ tp.walkBound ≤ m := by
          have := AstPath.walkBound_trait_lt none u cc (some tyn) tp
          omega
        simp only [fromSrcGoF]
        rw [ih m tp PathKind.plain [] htb.1 htb.2]
        rcases h0 : fromSrcGoF hygiene m tp PathKind.plain [] with e | otp
        · rfl
        rcases otp with _ | tpath
        · rfl
        rcases h1 : modifyLastSeg (spliceSelf (TypeRef.from_ast tyn))
            (segments ++ tpath.segments.reverse) with _ | segs
        · simp only [h1]
        · simp only [h1]
          rcases u with _ | pu
          · rfl
          · exact ih m pu _ _ (hub pu rfl).1 (hub pu rfl).2
      · rfl
    | crateKw => rfl
    | selfKw => rfl
    | superKw => rfl

/-- `GenericArgs::from_ast` never sets `has_self_type`. -/
theorem GenericArgs.from_ast_self (n : TypeArgList) (g : GenericArgs)
    (h : GenericArgs.from_ast n = some g) : g.has_self_type = false := by
  simp only [GenericArgs.from_ast] at h
  split at h
  · exact absurd h (by simp)
  · exact (Option.some.inj h) ▸ rfl

/-- `GenericArgs::from_fn_like_path_ast` never sets `has_self_type`. -/
theorem GenericArgs.from_fn_like_self (pl : Option ParamList) (rt : Option RetType)
    (g : GenericArgs) (h : GenericArgs.from_fn_like_path_ast pl rt = some g) :
    g.has_self_type = false := by
  simp only [GenericArgs.from_fn_like_path_ast] at h
  split at h
  · exact absurd h (by simp)
  · exact (Option.some.inj h) ▸ rfl

/-- The arguments attached to an ordinary name segment never set
`has_self_type`. -/
theorem segArgs_self (tal : Option TypeArgList) (pl : Option ParamList)
    (rt : Option RetType) (g : GenericArgs) (h : segArgs tal pl rt = some g) :
    g.has_self_type = false := by
  rcases hb : tal.bind GenericArgs.from_ast with _ | a
  · simp only [segArgs, hb] at h
    exact GenericArgs.from_fn_like_self pl rt g h
  · simp only [segArgs, hb] at h
    obtain rfl : a = g := Option.some.inj h
    rcases tal with _ | t
    · simp at hb
    · exact GenericArgs.from_ast_self t _ (by simpa using hb)

/-- A name segment built during the walk satisfies the self-type
invariant. -/
theorem nameSeg_selfInv (nm : Name) (tal : Option TypeArgList)
    (pl : Option ParamList) (rt : Option RetType) :
    PathSegment.selfInv ⟨nm, segArgs tal pl rt⟩ := by
  intro g hg hst
  have := segArgs_self tal pl rt g hg
  rw [this] at hst
  cases hst

/-- A spliced segment satisfies the self-type invariant: its argument
sequence starts with the inserted Self type. -/
theorem spliceSelf_selfInv (t : TypeRef) (s : PathSegment) :
    (spliceSelf t s).selfInv := by
  intro g hg
  simp only [spliceSelf] at hg
  obtain rfl := Option.some.inj hg
  intro _
  exact ⟨t, _, rfl⟩

/-- `modifyLastSeg` preserves a pointwise property when the modification
itself always establishes it. -/
theorem modifyLastSeg_forall (P : PathSegment → Prop) (f : PathSegment → PathSegment)
    (hf : ∀ x, P (f x)) :
    ∀ (l l' : List PathSegment), (∀ s ∈ l, P s) → modifyLastSeg f l = some l' →
      ∀ s ∈ l', P s := by
  intro l
  induction l with
  | nil =>
    intro l' _ h
    simp [modifyLastSeg] at h
  | cons a rest ih =>
    intro l' hl h
    cases rest with
    | nil =>
      simp only [modifyLastSeg] at h
      obtain rfl := Option.some.inj h
      intro s hs
      rw [List.mem_singleton] at hs
      subst hs
      exact hf a
    | cons b bs =>
      simp only [modifyLastSeg] at h
      rcases hm : modifyLastSeg f (b :: bs) with _ | r
      · rw [hm] at h
        simp at h
      · rw [hm] at h
        simp only [Option.map] at h
        obtain rfl := Option.some.inj h
        intro s hs
        rcases List.mem_cons.mp hs with hs | hs
        · subst hs
          exact hl _ (List.mem_cons_self _ _)
        · exact ih r (fun x hx => hl x (List.mem_cons_of_mem a hx)) hm s hs

/-- Walk invariant: starting from an accumulator whose segments all satisfy
the self-type invariant, any path the walk produces satisfies it on every
segment. -/
theorem fromSrcGoF_selfInv (hygiene : Hygiene) :
    ∀ (fuel : Nat) (p : AstPath) (kind : PathKind) (segments : List PathSegment),
      (∀ s ∈ segments, s.selfInv) →
      ∀ q, fromSrcGoF hygiene fuel p kind segments = Except.ok (some q) → q.selfInv := by
  intro fuel
  induction fuel with
  | zero =>
    intro p k segs hsegs q h
    simp [fromSrcGoF] at h
  | succ fuel ih =>
    intro p k segs hsegs q h
    obtain ⟨qu, u, seg⟩ := p
    rcases seg with _ | ⟨cc, sk⟩
    · simp [fromSrcGoF] at h
    rcases sk with _ | sk
    · simp [fromSrcGoF] at h
    cases sk with
    | name nr tal pl rt =>
      rcases hnr : hygiene nr with nm | cid
      · have hsegs' : ∀ s ∈ segs ++ [(⟨nm, segArgs tal pl rt⟩ : PathSegment)], s.selfInv := by
          intro s hs
          rcases List.mem_append.mp hs with hs | hs
          · exact hsegs s hs
          · rw [List.mem_singleton] at hs
            subst hs
            exact nameSeg_selfInv nm tal pl rt
        rcases qu with _ | pq
        · rcases u with _ | pu
          · simp only [fromSrcGoF, hnr] at h
            rw [Except.ok.injEq, Option.some.injEq] at h
            subst h
            intro s hs
            rw [List.mem_reverse] at hs
            exact hsegs' s hs
          · simp only [fromSrcGoF, hnr] at h
            exact ih pu _ _ hsegs' q h
        · simp only [fromSrcGoF, hnr] at h
          exact ih pq _ _ hsegs' q h
      · simp only [fromSrcGoF, hnr] at h
        rw [Except.ok.injEq, Option.some.injEq] at h
        subst h
        intro s hs
        rw [List.mem_reverse] at hs
        exact hsegs s hs
    | typeBased ty tr =>
      rcases qu with _ | pq
      · rcases ty with _ | tyn
        · simp [fromSrcGoF] at h
        rcases tr with _ | ⟨tpo⟩
        · rcases u with _ | pu
          · simp only [fromSrcGoF] at h
            rw [Except.ok.injEq, Option.some.injEq] at h
            subst h
            intro s hs
            rw [List.mem_reverse] at hs
            exact hsegs s hs
          · simp only [fromSrcGoF] at h
            exact ih pu _ _ hsegs q h
        rcases tpo with _ | tp
        · simp [fromSrcGoF] at h
        simp only [fromSrcGoF] at h
        rcases h0 : fromSrcGoF hygiene fuel tp PathKind.plain [] with e | otp
        · simp only [h0] at h
          simp at h
        rcases otp with _ | tpath
        · simp only [h0] at h
          simp at h
        simp only [h0] at h
        have htpath : tpath.selfInv := ih tp _ _ (by intro s hs; simp at hs) tpath h0
        have hsegs2 : ∀ s ∈ segs ++ tpath.segments.reverse, s.selfInv := by
          intro s hs
          rcases List.mem_append.mp hs with hs | hs
          · exact hsegs s hs
          · rw [List.mem_reverse] at hs
            exact htpath s hs
        rcases h1 : modifyLastSeg (spliceSelf (TypeRef.from_ast tyn))
            (segs ++ tpath.segments.reverse) with _ | segs3
        · simp only [h1] at h
          simp at h
        simp only [h1] at h
        have hsegs3 : ∀ s ∈ segs3, s.selfInv :=
          modifyLastSeg_forall _ _ (spliceSelf_selfInv (TypeRef.from_ast tyn)) _ segs3 hsegs2 h1
        rcases u with _ | pu
        · rw [Except.ok.injEq, Option.some.injEq] at h
          subst h
          intro s hs
          rw [List.mem_reverse] at hs
          exact hsegs3 s hs
        · exact ih pu _ _ hsegs3 q h
      · simp [fromSrcGoF] at h
    | crateKw =>
      simp only [fromSrcGoF] at h
      rw [Except.ok.injEq, Option.some.injEq] at h
      subst h
      intro s hs
      rw [List.mem_reverse] at hs
      exact hsegs s hs
    | selfKw =>
      simp only [fromSrcGoF] at h
      rw [Except.ok.injEq, Option.some.injEq] at h
      subst h
      intro s hs
      rw [List.mem_reverse] at hs
      exact hsegs s hs
    | superKw =>
      simp only [fromSrcGoF] at h
      rw [Except.ok.injEq, Option.some.injEq] at h
      subst h
      intro s hs
      rw [List.mem_reverse] at hs
      exact hsegs s hs

/-- Walk safety: on syntax whose type-based segments never carry an
explicit qualifier, the walk never reaches the failing branch of the
integrity assertion. -/
theorem fromSrcGoF_ne_error (hygiene : Hygiene) :
    ∀ (fuel : Nat) (p : AstPath) (kind : PathKind) (segments : List PathSegment),
      p.typeSegOk = true →
      fromSrcGoF hygiene fuel p kind segments ≠ Except.error () := by
  intro fuel
  induction fuel with
  | zero =>
    intro p k segs _
    simp [fromSrcGoF]
  | succ fuel ih =>
    intro p k segs hOk
    obtain ⟨qu, u, seg⟩ := p
    simp only [AstPath.typeSegOk, Bool.and_eq_true, Bool.or_eq_true,
      Bool.not_eq_true'] at hOk
    obtain ⟨⟨⟨hA, hB⟩, hC⟩, hD⟩ := hOk
    rcases seg with _ | ⟨cc, sk⟩
    · simp [fromSrcGoF]
    rcases sk with _ | sk
    · simp [fromSrcGoF]
    cases sk with
    | name nr tal pl rt =>
      rcases hnr : hygiene nr with nm | cid
      · rcases qu with _ | pq
        · rcases u with _ | pu
          · simp [fromSrcGoF, hnr]
          · simp only [fromSrcGoF, hnr]
            exact ih pu _ _ (by simpa [typeSegOkOpt] using hC)
        · simp only [fromSrcGoF, hnr]
          exact ih pq _ _ (by simpa [typeSegOkOpt] using hB)
      · simp [fromSrcGoF, hnr]
    | typeBased ty tr =>
      have hqnone : qu = none := by
        rcases hA with hA | hA
        · simp [isTypeBasedSeg] at hA
        · simpa [Option.isNone_iff_eq_none] using hA
      subst hqnone
      rcases ty with _ | tyn
      · simp [fromSrcGoF]
      rcases tr with _ | ⟨tpo⟩
      · rcases u with _ | pu
        · simp [fromSrcGoF]
        · simp only [fromSrcGoF]
          exact ih pu _ _ (by simpa [typeSegOkOpt] using hC)
      rcases tpo with _ | tp
      · simp [fromSrcGoF]
      simp only [fromSrcGoF]
      have htp : tp.typeSegOk = true := by simpa [traitPathOk] using hD
      rcases h0 : fromSrcGoF hygiene fuel tp PathKind.plain [] with e | otp
      · cases e
        exact absurd h0 (ih tp PathKind.plain [] htp)
      rcases otp with _ | tpath
      · simp
      rcases h1 : modifyLastSeg (spliceSelf (TypeRef.from_ast tyn))
          (segs ++ tpath.segments.reverse) with _ | segs3
      · simp [h1]
      simp only [h1]
      rcases u with _ | pu
      · simp
      · exact ih pu _ _ (by simpa [typeSegOkOpt] using hC)
    | crateKw => simp [fromSrcGoF]
    | selfKw => simp [fromSrcGoF]
    | superKw => simp [fromSrcGoF]

/-- C1: evaluation of the lowering at the trait-qualified path
`<T as a::Tr>::Item` (with `T` the type node 0, under the unhygienic
resolver). The result adopts the trait path's kind and the segment order
`[a, Tr, Item]`, but the synthesized Self argument and the
`has_self_type` mark land on segment `a` — the root of the trait
sub-path, i.e. the last element of the leaf-first accumulator at splice
time — while the leaf segment `Tr`, the one logically adjacent to `Item`
in the final order, keeps no arguments at all. -/
theorem c1_trait_splice_lands_on_root :
    Path.from_src Hygiene.new_unhygienic traitQualItemAst =
      Except.ok (some ⟨PathKind.plain,
        [⟨"a", some ⟨[GenericArg.type_ (TypeRef.fromNode 0)], true, []⟩⟩,
         ⟨"Tr", none⟩, ⟨"Item", none⟩]⟩) := by
  simp [Path.from_src, AstPath.walkBound, walkBoundOpt, segTraitBound, fromSrcGoF,
    traitQualItemAst, identAst, nameSeg, Hygiene.new_unhygienic, segArgs,
    GenericArgs.from_fn_like_path_ast, modifyLastSeg, spliceSelf, TypeRef.from_ast,
    GenericArgs.empty]

/-- C2: lowering a concrete multi-segment plain path `a::b::c` (ordinary
name segments, no keyword or type-relative root, no leading double colon)
yields a `Plain`-rooted path whose segment names are exactly `[a, b, c]`
root-first, although discovery is leaf-first with one final reversal. -/
theorem c2_plain_multi_segment (hygiene : Hygiene)
    (ra rb rc a b c : Name)
    (ta₁ ta₂ ta₃ : Option TypeArgList) (pl₁ pl₂ pl₃ : Option ParamList)
    (rt₁ rt₂ rt₃ : Option RetType)
    (ha : hygiene ra = Sum.inl a) (hb : hygiene rb = Sum.inl b)
    (hc : hygiene rc = Sum.inl c) :
    ∃ p : Path,
      Path.from_src hygiene
        (AstPath.mk
          (some (AstPath.mk
            (some (AstPath.mk none none (some (AstPathSegment.mk false
              (some (AstSegmentKind.name ra ta₁ pl₁ rt₁))))))
            none
            (some (AstPathSegment.mk false (some (AstSegmentKind.name rb ta₂ pl₂ rt₂))))))
          none
          (some (AstPathSegment.mk false (some (AstSegmentKind.name rc ta₃ pl₃ rt₃))))) =
        Except.ok (some p)
      ∧ p.kind = PathKind.plain
      ∧ p.segments.map PathSegment.name = [a, b, c] := by
  refine ⟨⟨PathKind.plain, [⟨a, segArgs ta₁ pl₁ rt₁⟩, ⟨b, segArgs ta₂ pl₂ rt₂⟩,
    ⟨c, segArgs ta₃ pl₃ rt₃⟩]⟩, ?_, rfl, rfl⟩
  simp [Path.from_src, AstPath.walkBound, walkBoundOpt, segTraitBound, fromSrcGoF,
    ha, hb, hc]

/-- Witness for C2 at hygiene `new_unhygienic` and names `a`, `b`, `c`
without argument syntax. -/
theorem c2_plain_multi_segment_witness :
    ∃ p : Path,
      Path.from_src Hygiene.new_unhygienic
        (AstPath.mk
          (some (AstPath.mk
            (some (AstPath.mk none none (some (AstPathSegment.mk false
              (some (AstSegmentKind.name "a" none none none))))))
            none
            (some (AstPathSegment.mk false (some (AstSegmentKind.name "b" none none none))))))
          none
          (some (AstPathSegment.mk false (some (AstSegmentKind.name "c" none none none))))) =
        Except.ok (some p)
      ∧ p.kind = PathKind.plain
      ∧ p.segments.map PathSegment.name = ["a", "b", "c"] :=
  c2_plain_multi_segment Hygiene.new_unhygienic "a" "b" "c" "a" "b" "c"
    none none none none none none none none none rfl rfl rfl

/-- C3: at any point of the walk (any current node, any accumulated kind
and segments), a node with no segment or with an unclassifiable segment
kind makes the whole lowering yield no path, never a partially filled one;
in particular `Path::from_src` itself yields no path on such a node. -/
theorem c3_absence_propagation (hygiene : Hygiene) :
    (∀ (fuel : Nat) (p : AstPath) (kind : PathKind) (segments : List PathSegment),
      (p.segment = none ∨ ∃ cc, p.segment = some (AstPathSegment.mk cc none)) →
      fromSrcGoF hygiene fuel p kind segments = Except.ok none)
    ∧ ∀ p : AstPath,
      (p.segment = none ∨ ∃ cc, p.segment = some (AstPathSegment.mk cc none)) →
      Path.from_src hygiene p = Except.ok none := by
  have hgo : ∀ (fuel : Nat) (p : AstPath) (kind : PathKind) (segments : List PathSegment),
      (p.segment = none ∨ ∃ cc, p.segment = some (AstPathSegment.mk cc none)) →
      fromSrcGoF hygiene fuel p kind segments = Except.ok none := by
    intro fuel p kind segs h
    obtain ⟨q, u, s⟩ := p
    rcases h with h | ⟨cc, h⟩ <;> simp only [AstPath.segment] at h <;> subst h <;>
      cases fuel <;> simp [fromSrcGoF]
  exact ⟨hgo, fun p h => hgo _ p _ _ h⟩

/-- Witness for C3: a node with no segment, met mid-walk with a non-empty
accumulator, still yields no path. -/
theorem c3_absence_propagation_witness :
    fromSrcGoF Hygiene.new_unhygienic 5 (AstPath.mk none none none)
      PathKind.plain [⟨"x", none⟩] = Except.ok none :=
  (c3_absence_propagation Hygiene.new_unhygienic).1 5
    (AstPath.mk none none none) PathKind.plain [⟨"x", none⟩] (Or.inl rfl)

/-- C4: a name reference that hygiene resolves to the crate-root marker,
appearing as the sole segment, lowers to a `DollarCrate` path carrying the
resolved compilation-unit identifier with an empty segment sequence, and
the walk breaks there without consulting any qualifier (explicit or
implicit) the node may have. -/
theorem c4_dollar_crate (hygiene : Hygiene) (q u : Option AstPath) (cc : Bool)
    (tal : Option TypeArgList) (pl : Option ParamList) (rt : Option RetType)
    (nr : Name) (cid : CrateId) (h : hygiene nr = Sum.inr cid) :
    Path.from_src hygiene (AstPath.mk q u (some (AstPathSegment.mk cc
      (some (AstSegmentKind.name nr tal pl rt))))) =
      Except.ok (some ⟨PathKind.dollarCrate cid, []⟩) := by
  simp [Path.from_src, AstPath.walkBound, walkBoundOpt, segTraitBound, fromSrcGoF, h]

/-- Witness for C4 at a hygiene context mapping every reference to crate 7,
on a node that even has an explicit qualifier. -/
theorem c4_dollar_crate_witness :
    Path.from_src (fun _ => Sum.inr 7) (AstPath.mk (some (identAst "x")) none
      (some (AstPathSegment.mk false (some (AstSegmentKind.name "crateref" none none none))))) =
      Except.ok (some ⟨PathKind.dollarCrate 7, []⟩) :=
  c4_dollar_crate (fun _ => Sum.inr 7) (some (identAst "x")) none false
    none none none "crateref" 7 rfl

/-- C5: the function-sugar collector synthesizes, whenever a parameter
list is present, exactly one type argument holding the tuple of the
parameter types in declared order (a missing ascribed type contributing
the placeholder type), plus exactly one binding from the fixed output-type
name to the return type exactly when a return type is written; and with no
parameter list and no return type it returns absence. -/
theorem c5_fn_like_collector :
    (∀ (ps : ParamList) (rt : Option RetType),
      GenericArgs.from_fn_like_path_ast (some ps) rt =
        some ⟨[GenericArg.type_ (TypeRef.Tuple
            (ps.params.map fun p => TypeRef.from_ast_opt p.ascribed_type))],
          false,
          match rt with
          | none => []
          | some r => [(OUTPUT_TYPE, TypeRef.from_ast_opt r.type_ref)]⟩)
    ∧ GenericArgs.from_fn_like_path_ast none none = none
    ∧ TypeRef.from_ast_opt none = TypeRef.Error := by
  refine ⟨?_, by simp [GenericArgs.from_fn_like_path_ast], rfl⟩
  intro ps rt
  rcases rt with _ | r <;> simp [GenericArgs.from_fn_like_path_ast]

/-- C6: a concrete single-segment identifier lowers to a `Plain` path with
exactly one segment of that name and no generic arguments; on that result
`is_ident` is true and `as_ident` returns the name. -/
theorem c6_single_ident (hygiene : Hygiene) (nr nm : Name)
    (h : hygiene nr = Sum.inl nm) :
    Path.from_src hygiene (AstPath.mk none none (some (AstPathSegment.mk false
      (some (AstSegmentKind.name nr none none none))))) =
      Except.ok (some ⟨PathKind.plain, [⟨nm, none⟩]⟩)
    ∧ Path.is_ident ⟨PathKind.plain, [⟨nm, none⟩]⟩ = true
    ∧ Path.as_ident ⟨PathKind.plain, [⟨nm, none⟩]⟩ = some nm := by
  refine ⟨?_, rfl, rfl⟩
  simp [Path.from_src, AstPath.walkBound, walkBoundOpt, segTraitBound, fromSrcGoF, h,
    segArgs, GenericArgs.from_fn_like_path_ast]

/-- Witness for C6 at the unhygienic resolver and the name `foo`. -/
theorem c6_single_ident_witness :
    Path.from_src Hygiene.new_unhygienic (AstPath.mk none none
      (some (AstPathSegment.mk false (some (AstSegmentKind.name "foo" none none none))))) =
      Except.ok (some ⟨PathKind.plain, [⟨"foo", none⟩]⟩)
    ∧ Path.is_ident ⟨PathKind.plain, [⟨"foo", none⟩]⟩ = true
    ∧ Path.as_ident ⟨PathKind.plain, [⟨"foo", none⟩]⟩ = some "foo" :=
  c6_single_ident Hygiene.new_unhygienic "foo" "foo" rfl

/-- C7: the plain-segment constructor round-trips: the built path has
exactly the requested kind, its segment names equal the input name
sequence unchanged, and every segment carries no generic arguments. -/
theorem c7_from_simple_segments_roundtrip (kind : PathKind) (names : List Name) :
    (Path.from_simple_segments kind names).kind = kind
    ∧ (Path.from_simple_segments kind names).segments.map PathSegment.name = names
    ∧ ∀ s ∈ (Path.from_simple_segments kind names).segments,
        s.args_and_bindings = none := by
  refine ⟨rfl, ?_, ?_⟩
  · simp [Path.from_simple_segments, Function.comp_def]
  · intro s hs
    simp only [Path.from_simple_segments, List.mem_map] at hs
    obtain ⟨nm, _, rfl⟩ := hs
    rfl

/-- Witness for C7 on the well-known absolute path `::std::ops::Try`. -/
theorem c7_from_simple_segments_roundtrip_witness :
    (Path.from_simple_segments PathKind.abs ["std", "ops", "Try"]).segments.map
        PathSegment.name = ["std", "ops", "Try"]
    ∧ ∀ s ∈ (Path.from_simple_segments PathKind.abs ["std", "ops", "Try"]).segments,
        s.args_and_bindings = none :=
  ⟨(c7_from_simple_segments_roundtrip PathKind.abs ["std", "ops", "Try"]).2.1,
   (c7_from_simple_segments_roundtrip PathKind.abs ["std", "ops", "Try"]).2.2⟩

/-- C8: `has_self_type` is true only with a non-empty argument sequence
headed by the spliced Self type argument: the three value constructors
never set it, and every path produced by lowering satisfies the invariant
on every segment. -/
theorem c8_has_self_type_invariant :
    (∀ (n : TypeArgList) (g : GenericArgs), GenericArgs.from_ast n = some g →
        g.has_self_type = false)
    ∧ (∀ (pl : Option ParamList) (rt : Option RetType) (g : GenericArgs),
        GenericArgs.from_fn_like_path_ast pl rt = some g → g.has_self_type = false)
    ∧ GenericArgs.empty.has_self_type = false
    ∧ ∀ (hygiene : Hygiene) (p : AstPath) (q : Path),
        Path.from_src hygiene p = Except.ok (some q) → q.selfInv := by
  refine ⟨GenericArgs.from_ast_self, GenericArgs.from_fn_like_self, rfl, ?_⟩
  intro hygiene p q h
  exact fromSrcGoF_selfInv hygiene _ p _ _ (by intro s hs; simp at hs) q h

/-- Witness for C8 on the lowering of `<T as a::Tr>::Item`, whose result
contains a segment with `has_self_type = true`. -/
theorem c8_has_self_type_invariant_witness :
    Path.selfInv ⟨PathKind.plain,
      [⟨"a", some ⟨[GenericArg.type_ (TypeRef.fromNode 0)], true, []⟩⟩,
       ⟨"Tr", none⟩, ⟨"Item", none⟩]⟩ :=
  c8_has_self_type_invariant.2.2.2 Hygiene.new_unhygienic traitQualItemAst _
    (by simp [Path.from_src, AstPath.walkBound, walkBoundOpt, segTraitBound, fromSrcGoF,
      traitQualItemAst, identAst, nameSeg, Hygiene.new_unhygienic, segArgs,
      GenericArgs.from_fn_like_path_ast, modifyLastSeg, spliceSelf, TypeRef.from_ast,
      GenericArgs.empty])

/-- C9: on syntax valid with respect to type-based segments (a node with a
type-relative segment kind never carries an explicit qualifier, anywhere
the walk can reach), the lowering never returns the panic value of the
integrity assertion `assert!(path.qualifier().is_none())`. -/
theorem c9_type_relative_assert_safe (hygiene : Hygiene) (p : AstPath)
    (h : p.typeSegOk = true) :
    Path.from_src hygiene p ≠ Except.error () :=
  fromSrcGoF_ne_error hygiene _ p _ _ h

/-- Witness for C9 on the valid trait-qualified path `<T as a::Tr>::Item`. -/
theorem c9_type_relative_assert_safe_witness :
    Path.from_src Hygiene.new_unhygienic traitQualItemAst ≠ Except.error () :=
  c9_type_relative_assert_safe Hygiene.new_unhygienic traitQualItemAst
    (by simp [AstPath.typeSegOk, typeSegOkOpt, traitPathOk, isTypeBasedSeg,
      traitQualItemAst, identAst, nameSeg])

/-- C10: a type-relative segment whose inner type node is absent makes the
whole lowering yield no path (at any point of the walk, whatever the
accumulated state, and in particular from `Path::from_src`), in contrast
with missing inner types inside generic-argument lists and function-sugar,
which are replaced by the placeholder type. -/
theorem c10_missing_type_relative_type (hygiene : Hygiene) :
    (∀ (fuel : Nat) (u : Option AstPath) (cc : Bool) (tr : Option AstTraitRef)
        (kind : PathKind) (segments : List PathSegment),
      fromSrcGoF hygiene fuel (AstPath.mk none u (some (AstPathSegment.mk cc
        (some (AstSegmentKind.typeBased none tr))))) kind segments = Except.ok none)
    ∧ (∀ (u : Option AstPath) (cc : Bool) (tr : Option AstTraitRef),
      Path.from_src hygiene (AstPath.mk none u (some (AstPathSegment.mk cc
        (some (AstSegmentKind.typeBased none tr))))) = Except.ok none)
    ∧ TypeRef.from_ast_opt none = TypeRef.Error
    ∧ GenericArgs.from_ast ⟨[⟨none⟩], []⟩ =
        some ⟨[GenericArg.type_ TypeRef.Error], false, []⟩
    ∧ GenericArgs.from_fn_like_path_ast (some ⟨[⟨none⟩]⟩) none =
        some ⟨[GenericArg.type_ (TypeRef.Tuple [TypeRef.Error])], false, []⟩ := by
  have hgo : ∀ (fuel : Nat) (u : Option AstPath) (cc : Bool) (tr : Option AstTraitRef)
      (kind : PathKind) (segments : List PathSegment),
      fromSrcGoF hygiene fuel (AstPath.mk none u (some (AstPathSegment.mk cc
        (some (AstSegmentKind.typeBased none tr))))) kind segments = Except.ok none := by
    intro fuel u cc tr kind segs
    cases fuel <;> simp [fromSrcGoF]
  refine ⟨hgo, ?_, rfl, ?_, ?_⟩
  · intro u cc tr
    exact hgo _ u cc tr _ _
  · simp [GenericArgs.from_ast, TypeRef.from_ast_opt]
  · simp [GenericArgs.from_fn_like_path_ast, TypeRef.from_ast_opt]

end RaHirDef
